import Mathlib

/-!
Verification development for the dash component-tree module
(`dash/development/base_component.py` and `dash/resources.py`).

The component tree is modelled by a mutual inductive family following the
data model used by the code: a `Node` (a `Component` instance) has an `id`
property (absent modelled as `none`), a `_namespace`, an optional declared
resource list (the `hasattr(component, resource_name)` attribute used by
`Resources.get_inferred_resources`), and a `children` slot which is one of:
attribute absent, `None`, a scalar (string/number, collapsed to `String`),
a single `Node`, or an ordered sequence of `Node`/scalar entries.

The three id-indexed operations `__getitem__`/`__setitem__`/`__delitem__`
all delegate to `Component._get_set_or_delete`; in Python the failures are
`KeyError` exceptions (a bare `KeyError` from
`_check_if_has_indexable_children`, and `KeyError(id)` from the final
`raise`), and in-place mutation means an exception does not roll state
back.  We therefore embed `_get_set_or_delete` as a state-passing function
returning both the post-state of `self` and either the raised `KeyError`
or the returned value.
-/

mutual

inductive Node : Type where
| mk : Option String → String → Option (List String) → Kids → Node

inductive Kids : Type where
| absent : Kids
| null : Kids
| scalar : String → Kids
| single : Node → Kids
| many : EntryList → Kids

inductive EntryList : Type where
| nil : EntryList
| cons : Entry → EntryList → EntryList

inductive Entry : Type where
| text : String → Entry
| node : Node → Entry

end

/-- The `id` property of a node, i.e. `getattr(component, 'id', None)`. -/
def Node.id : Node → Option String
| .mk i _ _ _ => i

/-- The `_namespace` attribute of a component. -/
def Node.ns : Node → String
| .mk _ n _ _ => n

/-- The optional declared resource-list attribute
(`getattr(component, resource_name)` when `hasattr` holds). -/
def Node.res : Node → Option (List String)
| .mk _ _ r _ => r

/-- The `children` slot of a node. -/
def Node.kids : Node → Kids
| .mk _ _ _ c => c

/-- The `id` of a sequence entry: `getattr(item, 'id', None)`; scalar
entries have no `id` attribute. -/
def Entry.entryId : Entry → Option String
| .text _ => none
| .node c => c.id

/-- Assigning an entry into the single-child slot
(`self.children = new_item`). -/
def Entry.toKids : Entry → Kids
| .text s => .scalar s
| .node c => .single c

theorem Node.id_mk (i : Option String) (nsp : String) (rs : Option (List String))
    (kids : Kids) : (Node.mk i nsp rs kids).id = i := rfl

theorem Node.ns_mk (i : Option String) (nsp : String) (rs : Option (List String))
    (kids : Kids) : (Node.mk i nsp rs kids).ns = nsp := rfl

theorem Node.res_mk (i : Option String) (nsp : String) (rs : Option (List String))
    (kids : Kids) : (Node.mk i nsp rs kids).res = rs := rfl

theorem Node.kids_mk (i : Option String) (nsp : String) (rs : Option (List String))
    (kids : Kids) : (Node.mk i nsp rs kids).kids = kids := rfl

/-- The operation selector of `Component._get_set_or_delete`. -/
inductive Op : Type where
| get : Op
| set : Op
| delete : Op

/-- A Python `KeyError`: `bare` is `raise KeyError` (the check in
`_check_if_has_indexable_children`), `withId id` is `raise KeyError(id)`
(the final raise of `_get_set_or_delete`).  Both are the same exception
class `KeyError` in Python; the constructors record only the `args`. -/
inductive KeyErr : Type where
| bare : KeyErr
| withId : String → KeyErr
deriving DecidableEq

/-- Result of `Component._get_set_or_delete`: the state of `self` after
the call (in-place mutation persists even when an exception is raised)
together with either the raised `KeyError` or the returned value
(`some` node for a successful `get`, `none` for `set`/`delete`). -/
structure GSD : Type where
  state : Node
  out : Except KeyErr (Option Node)

/-- Whether `_check_if_has_indexable_children` passes: the `children`
attribute exists and is a `Component` or a `tuple`/`MutableSequence`. -/
def Kids.indexable : Kids → Bool
| .single _ => true
| .many _ => true
| _ => false

mutual

/-- Shallow embedding of `Component._get_set_or_delete(self, id,
operation, new_item)` (base_component.py lines 161-223).  The state
component is the value of `self` after the call; recursive failures from
children are caught (`except KeyError: pass`) exactly as in the source. -/
def gsd : Node → String → Op → Entry → GSD
| .mk i nsp rs (.single c), k, op, new =>
    if c.id = some k then
      match op with
      | .get => ⟨.mk i nsp rs (.single c), .ok (some c)⟩
      | .set => ⟨.mk i nsp rs new.toKids, .ok none⟩
      | .delete => ⟨.mk i nsp rs .null, .ok none⟩
    else
      let r := gsd c k op new
      match r.out with
      | .ok v => ⟨.mk i nsp rs (.single r.state), .ok v⟩
      | .error _ => ⟨.mk i nsp rs (.single r.state), .error (.withId k)⟩
| .mk i nsp rs (.many xs), k, op, new =>
    let r := gsdList xs k op new
    match r.2 with
    | some v => ⟨.mk i nsp rs (.many r.1), .ok v⟩
    | none => ⟨.mk i nsp rs (.many r.1), .error (.withId k)⟩
| .mk i nsp rs .absent, _, _, _ => ⟨.mk i nsp rs .absent, .error .bare⟩
| .mk i nsp rs .null, _, _, _ => ⟨.mk i nsp rs .null, .error .bare⟩
| .mk i nsp rs (.scalar s), _, _, _ => ⟨.mk i nsp rs (.scalar s), .error .bare⟩

/-- The `for i, item in enumerate(self.children)` loop of
`_get_set_or_delete` over sequence children: returns the sequence after
the loop and `some v` when the loop returned (with get result `v`),
`none` when it fell through to the final `raise KeyError(id)`. -/
def gsdList : EntryList → String → Op → Entry → EntryList × Option (Option Node)
| .nil, _, _, _ => (.nil, none)
| .cons (.text s) rest, k, op, new =>
    let r := gsdList rest k op new
    (.cons (.text s) r.1, r.2)
| .cons (.node c) rest, k, op, new =>
    if c.id = some k then
      match op with
      | .get => (.cons (.node c) rest, some (some c))
      | .set => (.cons new rest, some none)
      | .delete => (rest, some none)
    else
      let r := gsd c k op new
      match r.out with
      | .ok v => (.cons (.node r.state) rest, some v)
      | .error _ =>
          let r2 := gsdList rest k op new
          (.cons (.node r.state) r2.1, r2.2)

end

mutual

/-- Descendant nodes of a node (excluding the node itself) in the
depth-first pre-order, left-to-right order of the tree. -/
def descsN : Node → List Node
| .mk _ _ _ kids => descsK kids

/-- Descendant nodes reachable through a `children` slot. -/
def descsK : Kids → List Node
| .absent => []
| .null => []
| .scalar _ => []
| .single c => c :: descsN c
| .many xs => descsL xs

/-- Descendant nodes of a sequence of entries, in pre-order. -/
def descsL : EntryList → List Node
| .nil => []
| .cons (.text _) rest => descsL rest
| .cons (.node c) rest => c :: (descsN c ++ descsL rest)

end

/-- The descendant nodes of `n` whose `id` equals `k`, in depth-first
pre-order. -/
def matchesIn (n : Node) (k : String) : List Node :=
  (descsN n).filter (fun m => m.id == some k)

/-- The matching nodes within a sequence of entries. -/
def matchesL (xs : EntryList) (k : String) : List Node :=
  (descsL xs).filter (fun m => m.id == some k)

mutual

/-- Shallow embedding of `Component.traverse` /
`Component.traverse_with_paths` (without the debug path strings): the
list of items (nodes and scalars) yielded for a node, depth-first
pre-order, excluding the node itself. -/
def travN : Node → List Entry
| .mk _ _ _ kids => travK kids

/-- Items yielded by `traverse_with_paths` for a `children` value:
nothing for absent/`None`/scalar children, the child followed by its own
traversal for a single `Component` child, and for a sequence each entry
followed by that entry's traversal when it is a `Component`. -/
def travK : Kids → List Entry
| .absent => []
| .null => []
| .scalar _ => []
| .single c => .node c :: travN c
| .many xs => travL xs

/-- Traversal of a sequence of entries. -/
def travL : EntryList → List Entry
| .nil => []
| .cons (.text s) rest => .text s :: travL rest
| .cons (.node c) rest => .node c :: (travN c ++ travL rest)

end

/-- Shallow embedding of `Component.__iter__`: the ids yielded, i.e. the
`id` of every traversed `Component` whose `id` is not `None`. -/
def iterN (n : Node) : List String :=
  (travN n).filterMap Entry.entryId

mutual

/-- Shallow embedding of `Component.__len__` (base_component.py lines
290-310). -/
def lenN : Node → Nat
| .mk _ _ _ kids => lenK kids

/-- The length contributed by a `children` value: 0 when the attribute
is absent or `None`, `1 + len(child)` for a single `Component` child,
the loop sum for a sequence, and 1 for a scalar (string or number). -/
def lenK : Kids → Nat
| .absent => 0
| .null => 0
| .single c => 1 + lenN c
| .many xs => lenL xs
| .scalar _ => 1

/-- The `for c in self.children` loop of `__len__`: each entry counts 1,
plus `len(c)` when the entry is a `Component`. -/
def lenL : EntryList → Nat
| .nil => 0
| .cons (.text _) rest => 1 + lenL rest
| .cons (.node c) rest => 1 + lenN c + lenL rest

end

/-!
Serializer model (`Component.to_plotly_json`, lines 137-157).  A
component instance is modelled by its `_prop_names`, its
`_valid_wildcard_attributes` prefixes, its instance attributes (the
entries of `self.__dict__` set by `__init__`; an absent property simply
has no entry), and its `_type` / `_namespace`.  Property values include
the `Component.UNDEFINED` sentinel, which is an ordinary object: when it
is actually held as an attribute value, `hasattr` is true.
-/

inductive PropVal : Type where
| str : String → PropVal
| num : Int → PropVal
| undef : PropVal
deriving DecidableEq

structure CompInst : Type where
  propNames : List String
  wildcards : List String
  attrs : List (String × PropVal)
  compType : String
  compNamespace : String

/-- The output shape of `to_plotly_json`: the dict with keys `props`,
`type` and `namespace`. -/
structure PlotlyJson : Type where
  props : List (String × PropVal)
  compType : String
  compNamespace : String
deriving DecidableEq

/-- Replace the binding of a key in an association list, or append it
when absent (Python dict item assignment). -/
def setKey : List (String × PropVal) → String → PropVal → List (String × PropVal)
| [], key, v => [(key, v)]
| (k0, v0) :: rest, key, v =>
    if k0 = key then (k0, v) :: rest else (k0, v0) :: setKey rest key v

/-- Python `dict.update`: apply each binding of the update in order. -/
def dictUpdate (d : List (String × PropVal)) (u : List (String × PropVal)) :
    List (String × PropVal) :=
  u.foldl (fun acc kv => setKey acc kv.1 kv.2) d

/-- Shallow embedding of `Component.to_plotly_json`: collects
`{p: getattr(self, p) for p in self._prop_names if hasattr(self, p)}`,
then updates with the wildcard-prefixed entries of `self.__dict__`, and
pairs the result with `_type` and `_namespace`. -/
def to_plotly_json (c : CompInst) : PlotlyJson :=
  let base := c.propNames.filterMap
    (fun p => (c.attrs.lookup p).map (fun v => (p, v)))
  let wilds := c.attrs.filter
    (fun kv => c.wildcards.any (fun w => kv.1.startsWith w))
  ⟨dictUpdate base wilds, c.compType, c.compNamespace⟩

/-!
Resource extractor model (`Resources.get_inferred_resources`,
resources.py lines 133-157).  A collected resource entry is the declared
payload paired with the namespace written into it
(`r['namespace'] = component._namespace`).
-/

/-- The accumulator of `get_inferred_resources`: the `namespaces` list
of namespaces already seen and the `resources` list collected so far. -/
structure ExtractState : Type where
  namespaces : List String
  resources : List (String × String)

/-- Shallow embedding of the inner `extract_resource_from_component`:
scalars are skipped by the `isinstance(component, Component)` check; a
node whose namespace was already seen is skipped; otherwise its
namespace is recorded and, if it has the resource attribute, its entries
are collected tagged with the namespace. -/
def extractOne (st : ExtractState) (e : Entry) : ExtractState :=
  match e with
  | .text _ => st
  | .node c =>
      if st.namespaces.contains c.ns then st
      else
        { namespaces := st.namespaces ++ [c.ns]
          resources := st.resources ++
            (match c.res with
             | some rs => rs.map (fun r => (r, c.ns))
             | none => []) }

/-- Shallow embedding of `Resources.get_inferred_resources`: applies the
extractor to the layout itself and then to every item of
`layout.traverse()`. -/
def getInferredResources (layout : Node) : List (String × String) :=
  ((Entry.node layout :: travN layout).foldl extractOne ⟨[], []⟩).resources

/-- The nodes among a list of traversed items (the items passing the
`isinstance(component, Component)` check). -/
def nodesOf (es : List Entry) : List Node :=
  es.filterMap (fun e => match e with | .node c => some c | .text _ => none)

/-- Specification-side dedup: keep, in order, the first node carrying
each namespace not already in `seen`. -/
def firstPerNs (seen : List String) : List Node → List Node
| [] => []
| c :: rest =>
    if seen.contains c.ns then firstPerNs seen rest
    else c :: firstPerNs (seen ++ [c.ns]) rest

/-- The contribution of one node: its declared resource list (empty when
the attribute is absent), each entry tagged with the node's namespace. -/
def declRes (c : Node) : List (String × String) :=
  (c.res.getD []).map (fun r => (r, c.ns))

/-!
Registry model (`ComponentRegistry.get_resources`, base_component.py
lines 12-31).  `cls.registry` is the set of registered module names
(modelled as a list fixing Python's set iteration order);
`sys.modules[m]` attribute lookup `getattr(module, resource_name, [])`
is modelled by an environment function.  The cache maps a resource name
to the list object stored by a previous call; `if cached:` is Python
truthiness, so both a missing entry and an empty cached list lead to
recomputation.
-/

structure RegState : Type where
  registry : List String
  cache : List (String × List String)

/-- Store a binding in the cache (`cls.__dist_cache[resource_name] = resources`). -/
def cacheSet : List (String × List String) → String → List String → List (String × List String)
| [], key, v => [(key, v)]
| (k0, v0) :: rest, key, v =>
    if k0 = key then (k0, v) :: rest else (k0, v0) :: cacheSet rest key v

/-- Dict lookup (`cls.__dist_cache.get(resource_name)`): `none` when the
key is absent. -/
def cacheGet : List (String × List String) → String → Option (List String)
| [], _ => none
| (k0, v0) :: rest, key => if k0 = key then some v0 else cacheGet rest key

/-- Shallow embedding of `ComponentRegistry.get_resources`: return the
cached list when it is truthy (non-empty); otherwise recompute by
extending over every registered module and store the result. -/
def ComponentRegistry.getResources (env : String → String → List String)
    (st : RegState) (name : String) : List String × RegState :=
  match cacheGet st.cache name with
  | some cached =>
      if cached ≠ [] then (cached, st)
      else
        let resources := st.registry.flatMap (fun m => env m name)
        (resources, ⟨st.registry, cacheSet st.cache name resources⟩)
  | none =>
      let resources := st.registry.flatMap (fun m => env m name)
      (resources, ⟨st.registry, cacheSet st.cache name resources⟩)

def sampleA : Node := .mk (some "a") "ns" none .absent
def sampleRoot : Node := .mk none "ns" none (.many (.cons (.node sampleA) .nil))

example : (gsd sampleRoot "a" .get (.text "")).out = .ok (some sampleA) := rfl
example : (gsd sampleRoot "z" .get (.text "")).out = .error (.withId "z") := rfl
example : matchesIn sampleRoot "a" = [sampleA] := rfl
example : iterN sampleRoot = ["a"] := rfl
example : lenN sampleRoot = 1 := rfl

theorem matchesIn_absent (i : Option String) (nsp : String) (rs : Option (List String))
    (k : String) : matchesIn (.mk i nsp rs .absent) k = [] := rfl

theorem matchesIn_null (i : Option String) (nsp : String) (rs : Option (List String))
    (k : String) : matchesIn (.mk i nsp rs .null) k = [] := rfl

theorem matchesIn_scalar (i : Option String) (nsp : String) (rs : Option (List String))
    (s k : String) : matchesIn (.mk i nsp rs (.scalar s)) k = [] := rfl

theorem matchesIn_single (i : Option String) (nsp : String) (rs : Option (List String))
    (c : Node) (k : String) :
    matchesIn (.mk i nsp rs (.single c)) k =
      if c.id = some k then c :: matchesIn c k else matchesIn c k := by
  by_cases hid : c.id = some k <;>
    simp [matchesIn, descsN, descsK, List.filter_cons, hid]

theorem matchesIn_many (i : Option String) (nsp : String) (rs : Option (List String))
    (xs : EntryList) (k : String) :
    matchesIn (.mk i nsp rs (.many xs)) k = matchesL xs k := rfl

theorem matchesL_nil (k : String) : matchesL .nil k = [] := rfl

theorem matchesL_text (s : String) (rest : EntryList) (k : String) :
    matchesL (.cons (.text s) rest) k = matchesL rest k := rfl

theorem matchesL_node (c : Node) (rest : EntryList) (k : String) :
    matchesL (.cons (.node c) rest) k =
      if c.id = some k then c :: (matchesIn c k ++ matchesL rest k)
      else matchesIn c k ++ matchesL rest k := by
  by_cases hid : c.id = some k <;>
    simp [matchesL, matchesIn, descsL, List.filter_cons, List.filter_append, hid]

/-- The root node's own `id` is never changed by
`_get_set_or_delete` (mutation only touches the `children` slot). -/
theorem gsd_state_id (n : Node) (k : String) (op : Op) (new : Entry) :
    (gsd n k op new).state.id = n.id := by
  match n with
  | .mk i nsp rs .absent => rfl
  | .mk i nsp rs .null => rfl
  | .mk i nsp rs (.scalar s) => rfl
  | .mk i nsp rs (.single c) =>
    by_cases hid : c.id = some k
    · cases op <;> simp [gsd, hid, Node.id_mk]
    · cases hout : (gsd c k op new).out <;> simp [gsd, hid, hout, Node.id_mk]
  | .mk i nsp rs (.many xs) =>
    cases hr : (gsdList xs k op new).2 <;> simp [gsd, hr, Node.id_mk]

mutual

/-- When no descendant of the node carries the requested id, every
operation raises a `KeyError`. -/
theorem gsd_err_of_nomatch (n : Node) (k : String) (op : Op) (new : Entry)
    (h : matchesIn n k = []) : ∃ e, (gsd n k op new).out = .error e := by
  match n with
  | .mk i nsp rs .absent => exact ⟨.bare, rfl⟩
  | .mk i nsp rs .null => exact ⟨.bare, rfl⟩
  | .mk i nsp rs (.scalar s) => exact ⟨.bare, rfl⟩
  | .mk i nsp rs (.single c) =>
    rw [matchesIn_single] at h
    by_cases hid : c.id = some k
    · simp [hid] at h
    · rw [if_neg hid] at h
      obtain ⟨e', hout⟩ := gsd_err_of_nomatch c k op new h
      exact ⟨.withId k, by simp [gsd, hid, hout]⟩
  | .mk i nsp rs (.many xs) =>
    rw [matchesIn_many] at h
    have hr := gsdList_none_of_nomatch xs k op new h
    exact ⟨.withId k, by simp [gsd, hr]⟩

/-- When no node in the sequence subtree carries the requested id, the
loop falls through without returning. -/
theorem gsdList_none_of_nomatch (xs : EntryList) (k : String) (op : Op) (new : Entry)
    (h : matchesL xs k = []) : (gsdList xs k op new).2 = none := by
  match xs with
  | .nil => rfl
  | .cons (.text s) rest =>
    rw [matchesL_text] at h
    have := gsdList_none_of_nomatch rest k op new h
    simp [gsdList, this]
  | .cons (.node c) rest =>
    rw [matchesL_node] at h
    by_cases hid : c.id = some k
    · simp [hid] at h
    · rw [if_neg hid] at h
      have hc : matchesIn c k = [] := by
        cases hm : matchesIn c k with
        | nil => rfl
        | cons a l => rw [hm] at h; simp at h
      have hrest : matchesL rest k = [] := by
        rw [hc] at h; simpa using h
      obtain ⟨e', hout⟩ := gsd_err_of_nomatch c k op new hc
      have hr := gsdList_none_of_nomatch rest k op new hrest
      simp [gsdList, hid, hout, hr]

end

mutual

/-- When an operation raises, no descendant of the node carries the
requested id (the search is exhaustive). -/
theorem gsd_nomatch_of_err (n : Node) (k : String) (op : Op) (new : Entry) (e : KeyErr)
    (h : (gsd n k op new).out = .error e) : matchesIn n k = [] := by
  match n with
  | .mk i nsp rs .absent => rfl
  | .mk i nsp rs .null => rfl
  | .mk i nsp rs (.scalar s) => rfl
  | .mk i nsp rs (.single c) =>
    rw [matchesIn_single]
    by_cases hid : c.id = some k
    · cases op <;> simp [gsd, hid] at h
    · rw [if_neg hid]
      cases hout : (gsd c k op new).out with
      | ok v => simp [gsd, hid, hout] at h
      | error e' => exact gsd_nomatch_of_err c k op new e' hout
  | .mk i nsp rs (.many xs) =>
    rw [matchesIn_many]
    cases hr : (gsdList xs k op new).2 with
    | some v => simp [gsd, hr] at h
    | none => exact gsdList_nomatch_of_none xs k op new hr

/-- When the sequence loop falls through, no node in the sequence
subtree carries the requested id. -/
theorem gsdList_nomatch_of_none (xs : EntryList) (k : String) (op : Op) (new : Entry)
    (h : (gsdList xs k op new).2 = none) : matchesL xs k = [] := by
  match xs with
  | .nil => rfl
  | .cons (.text s) rest =>
    rw [matchesL_text]
    have h' : (gsdList rest k op new).2 = none := by simpa [gsdList] using h
    exact gsdList_nomatch_of_none rest k op new h'
  | .cons (.node c) rest =>
    rw [matchesL_node]
    by_cases hid : c.id = some k
    · cases op <;> simp [gsdList, hid] at h
    · rw [if_neg hid]
      cases hout : (gsd c k op new).out with
      | ok v => simp [gsdList, hid, hout] at h
      | error e' =>
        have hc := gsd_nomatch_of_err c k op new e' hout
        have h' : (gsdList rest k op new).2 = none := by
          simpa [gsdList, hid, hout] using h
        have hrest := gsdList_nomatch_of_none rest k op new h'
        simp [hc, hrest]

end

mutual

/-- The `get` operation returns the first node with the requested id in
depth-first pre-order, left-to-right. -/
theorem gsd_get_of_match (n : Node) (k : String) (new : Entry) (m : Node) (l : List Node)
    (h : matchesIn n k = m :: l) : (gsd n k .get new).out = .ok (some m) := by
  match n with
  | .mk i nsp rs .absent => simp [matchesIn_absent] at h
  | .mk i nsp rs .null => simp [matchesIn_null] at h
  | .mk i nsp rs (.scalar s) => simp [matchesIn_scalar] at h
  | .mk i nsp rs (.single c) =>
    rw [matchesIn_single] at h
    by_cases hid : c.id = some k
    · rw [if_pos hid] at h
      have hm : c = m := (List.cons_eq_cons.mp h).1
      subst hm
      simp [gsd, hid]
    · rw [if_neg hid] at h
      have hout := gsd_get_of_match c k new m l h
      simp [gsd, hid, hout]
  | .mk i nsp rs (.many xs) =>
    rw [matchesIn_many] at h
    have hr := gsdList_get_of_match xs k new m l h
    simp [gsd, hr]

/-- The sequence loop under `get` returns the first match in pre-order. -/
theorem gsdList_get_of_match (xs : EntryList) (k : String) (new : Entry) (m : Node)
    (l : List Node) (h : matchesL xs k = m :: l) :
    (gsdList xs k .get new).2 = some (some m) := by
  match xs with
  | .nil => simp [matchesL_nil] at h
  | .cons (.text s) rest =>
    rw [matchesL_text] at h
    have := gsdList_get_of_match rest k new m l h
    simp [gsdList, this]
  | .cons (.node c) rest =>
    rw [matchesL_node] at h
    by_cases hid : c.id = some k
    · rw [if_pos hid] at h
      have hm : c = m := (List.cons_eq_cons.mp h).1
      subst hm
      simp [gsdList, hid]
    · rw [if_neg hid] at h
      cases hmc : matchesIn c k with
      | cons m' l' =>
        rw [hmc] at h
        have hm : m' = m := by simpa using congrArg List.head? h
        have hout := gsd_get_of_match c k new m' l' hmc
        rw [← hm]
        simp [gsdList, hid, hout]
      | nil =>
        rw [hmc] at h
        simp only [List.nil_append] at h
        obtain ⟨e', hout⟩ := gsd_err_of_nomatch c k .get new hmc
        have hr := gsdList_get_of_match rest k new m l h
        simp [gsdList, hid, hout, hr]

end

/-- A successful operation implies some descendant carries the
requested id. -/
theorem gsd_matches_ne_of_ok (n : Node) (k : String) (op : Op) (new : Entry)
    (v : Option Node) (h : (gsd n k op new).out = .ok v) : matchesIn n k ≠ [] := by
  intro hm
  obtain ⟨e, he⟩ := gsd_err_of_nomatch n k op new hm
  rw [h] at he
  simp at he

mutual

/-- When `_get_set_or_delete` raises, the node is left unchanged:
failure happens only at the end of a branch, and recursive failures from
children leave those children unchanged. -/
theorem gsd_err_state (n : Node) (k : String) (op : Op) (new : Entry) (e : KeyErr)
    (h : (gsd n k op new).out = .error e) : (gsd n k op new).state = n := by
  match n with
  | .mk i nsp rs .absent => rfl
  | .mk i nsp rs .null => rfl
  | .mk i nsp rs (.scalar s) => rfl
  | .mk i nsp rs (.single c) =>
    by_cases hid : c.id = some k
    · cases op <;> simp [gsd, hid] at h
    · cases hout : (gsd c k op new).out with
      | ok v => simp [gsd, hid, hout] at h
      | error e' =>
        have hst := gsd_err_state c k op new e' hout
        simp [gsd, hid, hout, hst]
  | .mk i nsp rs (.many xs) =>
    cases hr : (gsdList xs k op new).2 with
    | some v => simp [gsd, hr] at h
    | none =>
      have hst := gsdList_none_state xs k op new hr
      simp [gsd, hr, hst]

/-- When the sequence loop falls through without a match, the sequence
is left unchanged. -/
theorem gsdList_none_state (xs : EntryList) (k : String) (op : Op) (new : Entry)
    (h : (gsdList xs k op new).2 = none) : (gsdList xs k op new).1 = xs := by
  match xs with
  | .nil => rfl
  | .cons (.text s) rest =>
    simp only [gsdList] at h ⊢
    rw [gsdList_none_state rest k op new h]
  | .cons (.node c) rest =>
    by_cases hid : c.id = some k
    · cases op <;> simp [gsdList, hid] at h
    · cases hout : (gsd c k op new).out with
      | ok v => simp [gsdList, hid, hout] at h
      | error e' =>
        have hst := gsd_err_state c k op new e' hout
        simp only [gsdList, hid, hout, if_neg hid] at h ⊢
        have h2 : (gsdList rest k op new).2 = none := by
          simpa [hout] using h
        rw [gsdList_none_state rest k op new h2]
        simp [hout, hst]

end

mutual

/-- A successful `delete` with at most one matching descendant removes
the only match: afterwards no descendant carries the id. -/
theorem gsd_delete_clears (n : Node) (k : String) (new : Entry) (v : Option Node)
    (hle : (matchesIn n k).length ≤ 1)
    (h : (gsd n k .delete new).out = .ok v) :
    matchesIn ((gsd n k .delete new).state) k = [] := by
  match n with
  | .mk i nsp rs .absent => simp [gsd] at h
  | .mk i nsp rs .null => simp [gsd] at h
  | .mk i nsp rs (.scalar s) => simp [gsd] at h
  | .mk i nsp rs (.single c) =>
    by_cases hid : c.id = some k
    · have hstate : (gsd (Node.mk i nsp rs (Kids.single c)) k .delete new).state =
          .mk i nsp rs .null := by simp [gsd, hid]
      rw [hstate, matchesIn_null]
    · cases hout : (gsd c k .delete new).out with
      | error e' => simp [gsd, hid, hout] at h
      | ok v' =>
        have hlec : (matchesIn c k).length ≤ 1 := by
          rwa [matchesIn_single, if_neg hid] at hle
        have hc := gsd_delete_clears c k new v' hlec hout
        have hidp : ((gsd c k .delete new).state).id = c.id := gsd_state_id c k .delete new
        have hstate : (gsd (Node.mk i nsp rs (Kids.single c)) k .delete new).state =
            .mk i nsp rs (.single (gsd c k .delete new).state) := by
          simp [gsd, hid, hout]
        rw [hstate, matchesIn_single, hidp, if_neg hid]
        exact hc
  | .mk i nsp rs (.many xs) =>
    cases hr : (gsdList xs k .delete new).2 with
    | none => simp [gsd, hr] at h
    | some v' =>
      have hle' : (matchesL xs k).length ≤ 1 := by rwa [matchesIn_many] at hle
      have hl := gsdList_delete_clears xs k new v' hle' hr
      have hstate : (gsd (Node.mk i nsp rs (Kids.many xs)) k .delete new).state =
          .mk i nsp rs (.many (gsdList xs k .delete new).1) := by simp [gsd, hr]
      rw [hstate, matchesIn_many]
      exact hl

/-- The sequence version of `gsd_delete_clears`. -/
theorem gsdList_delete_clears (xs : EntryList) (k : String) (new : Entry) (v : Option Node)
    (hle : (matchesL xs k).length ≤ 1)
    (h : (gsdList xs k .delete new).2 = some v) :
    matchesL ((gsdList xs k .delete new).1) k = [] := by
  match xs with
  | .nil => simp [gsdList] at h
  | .cons (.text s) rest =>
    have h' : (gsdList rest k .delete new).2 = some v := by simpa [gsdList] using h
    have hle' : (matchesL rest k).length ≤ 1 := by rwa [matchesL_text] at hle
    have hr := gsdList_delete_clears rest k new v hle' h'
    have hstate : (gsdList (EntryList.cons (Entry.text s) rest) k .delete new).1 =
        .cons (.text s) (gsdList rest k .delete new).1 := by simp [gsdList]
    rw [hstate, matchesL_text]
    exact hr
  | .cons (.node c) rest =>
    by_cases hid : c.id = some k
    · have hstate : (gsdList (EntryList.cons (Entry.node c) rest) k .delete new).1 = rest := by
        simp [gsdList, hid]
      rw [hstate]
      rw [matchesL_node, if_pos hid] at hle
      simp only [List.length_cons, List.length_append] at hle
      have h0 : (matchesL rest k).length = 0 := by omega
      exact List.length_eq_zero.mp h0
    · cases hout : (gsd c k .delete new).out with
      | ok v' =>
        rw [matchesL_node, if_neg hid] at hle
        simp only [List.length_append] at hle
        have hlec : (matchesIn c k).length ≤ 1 := by omega
        have hc := gsd_delete_clears c k new v' hlec hout
        have hne := gsd_matches_ne_of_ok c k .delete new v' hout
        have hcpos : 1 ≤ (matchesIn c k).length := by
          cases hmc : matchesIn c k with
          | nil => exact absurd hmc hne
          | cons a l => simp [hmc]
        have hrest : matchesL rest k = [] :=
          List.length_eq_zero.mp (by omega)
        have hidp : ((gsd c k .delete new).state).id = c.id := gsd_state_id c k .delete new
        have hstate : (gsdList (EntryList.cons (Entry.node c) rest) k .delete new).1 =
            .cons (.node (gsd c k .delete new).state) rest := by simp [gsdList, hid, hout]
        rw [hstate, matchesL_node, hidp, if_neg hid, hc, hrest]
        rfl
      | error e' =>
        have hcstate : (gsd c k .delete new).state = c := gsd_err_state c k .delete new e' hout
        have hc0 : matchesIn c k = [] := gsd_nomatch_of_err c k .delete new e' hout
        have h' : (gsdList rest k .delete new).2 = some v := by
          simpa [gsdList, hid, hout] using h
        have hle' : (matchesL rest k).length ≤ 1 := by
          rw [matchesL_node, if_neg hid, hc0] at hle
          simpa using hle
        have hr := gsdList_delete_clears rest k new v hle' h'
        have hstate : (gsdList (EntryList.cons (Entry.node c) rest) k .delete new).1 =
            .cons (.node (gsd c k .delete new).state) (gsdList rest k .delete new).1 := by
          simp [gsdList, hid, hout]
        rw [hstate, hcstate, matchesL_node, if_neg hid, hc0, hr]
        rfl

end

mutual

/-- The ids yielded by `__iter__` are exactly the non-null ids of the
descendant nodes in depth-first pre-order. -/
theorem travN_ids (n : Node) :
    (travN n).filterMap Entry.entryId = (descsN n).filterMap Node.id := by
  match n with
  | .mk i nsp rs kids =>
    have h := travK_ids kids
    simpa [travN, descsN] using h

/-- The `children`-slot version of `travN_ids`. -/
theorem travK_ids (kids : Kids) :
    (travK kids).filterMap Entry.entryId = (descsK kids).filterMap Node.id := by
  match kids with
  | .absent => rfl
  | .null => rfl
  | .scalar s => rfl
  | .single c =>
    have h := travN_ids c
    simp [travK, descsK, List.filterMap_cons, Entry.entryId, h]
  | .many xs => exact travL_ids xs

/-- The sequence version of `travN_ids`. -/
theorem travL_ids (xs : EntryList) :
    (travL xs).filterMap Entry.entryId = (descsL xs).filterMap Node.id := by
  match xs with
  | .nil => rfl
  | .cons (.text s) rest =>
    have h := travL_ids rest
    simp [travL, descsL, List.filterMap_cons, Entry.entryId, h]
  | .cons (.node c) rest =>
    have h1 := travN_ids c
    have h2 := travL_ids rest
    simp [travL, descsL, List.filterMap_cons, List.filterMap_append, Entry.entryId, h1, h2]

end

/-- The fold of `extract_resource_from_component` collects, per first
occurrence of each namespace, that node's declared list tagged with the
namespace. -/
theorem extract_fold (es : List Entry) (seen : List String) (acc : List (String × String)) :
    (es.foldl extractOne ⟨seen, acc⟩).resources =
      acc ++ (firstPerNs seen (nodesOf es)).flatMap declRes := by
  induction es generalizing seen acc with
  | nil => simp [nodesOf, firstPerNs]
  | cons e rest ih =>
    cases e with
    | text s =>
      simp only [List.foldl_cons, extractOne]
      rw [ih seen acc]
      simp [nodesOf, List.filterMap_cons]
    | node c =>
      simp only [List.foldl_cons]
      have hnodes : nodesOf (Entry.node c :: rest) = c :: nodesOf rest := by
        simp [nodesOf, List.filterMap_cons]
      by_cases hc : seen.contains c.ns
      · have hc' : c.ns ∈ seen := by simpa using hc
        rw [show extractOne ⟨seen, acc⟩ (.node c) = ⟨seen, acc⟩ from by
          simp [extractOne, hc, hc']]
        rw [ih seen acc, hnodes]
        rw [show firstPerNs seen (c :: nodesOf rest) = firstPerNs seen (nodesOf rest) from by
          simp [firstPerNs, hc, hc']]
      · have hc' : ¬ c.ns ∈ seen := by simpa using hc
        have hdecl : (match c.res with
            | some rs => rs.map (fun r => (r, c.ns))
            | none => ([] : List (String × String))) = declRes c := by
          cases hr : c.res <;> simp [declRes, hr]
        rw [show extractOne ⟨seen, acc⟩ (.node c) = ⟨seen ++ [c.ns], acc ++ declRes c⟩ from by
          simp only [extractOne, hc, Bool.false_eq_true, if_neg, not_false_eq_true, hdecl]]
        rw [ih (seen ++ [c.ns]) (acc ++ declRes c), hnodes]
        rw [show firstPerNs seen (c :: nodesOf rest) =
              c :: firstPerNs (seen ++ [c.ns]) (nodesOf rest) from by
          simp [firstPerNs, hc, hc']]
        simp [List.flatMap_cons, List.append_assoc]

/-- Every node kept by `firstPerNs seen` has a namespace outside `seen`. -/
theorem firstPerNs_not_seen (l : List Node) (seen : List String) :
    ∀ c ∈ firstPerNs seen l, ¬ c.ns ∈ seen := by
  induction l generalizing seen with
  | nil => simp [firstPerNs]
  | cons a rest ih =>
    by_cases hc : seen.contains a.ns
    · have hc' : a.ns ∈ seen := by simpa using hc
      rw [show firstPerNs seen (a :: rest) = firstPerNs seen rest from by
        simp [firstPerNs, hc, hc']]
      exact ih seen
    · have hc' : ¬ a.ns ∈ seen := by simpa using hc
      rw [show firstPerNs seen (a :: rest) = a :: firstPerNs (seen ++ [a.ns]) rest from by
        simp [firstPerNs, hc, hc']]
      intro c hcmem
      rcases List.mem_cons.mp hcmem with hceq | hcmem
      · subst hceq
        exact hc'
      · intro hmem
        exact ih (seen ++ [a.ns]) c hcmem (by simp [hmem])

/-- The namespaces kept by `firstPerNs` are pairwise distinct. -/
theorem firstPerNs_nodup (l : List Node) (seen : List String) :
    ((firstPerNs seen l).map Node.ns).Nodup := by
  induction l generalizing seen with
  | nil => simp [firstPerNs]
  | cons a rest ih =>
    by_cases hc : seen.contains a.ns
    · have hc' : a.ns ∈ seen := by simpa using hc
      rw [show firstPerNs seen (a :: rest) = firstPerNs seen rest from by
        simp [firstPerNs, hc, hc']]
      exact ih seen
    · have hc' : ¬ a.ns ∈ seen := by simpa using hc
      rw [show firstPerNs seen (a :: rest) = a :: firstPerNs (seen ++ [a.ns]) rest from by
        simp [firstPerNs, hc, hc']]
      rw [List.map_cons, List.nodup_cons]
      refine ⟨?_, ih (seen ++ [a.ns])⟩
      intro hmem
      obtain ⟨c, hcmem, hceq⟩ := List.mem_map.mp hmem
      exact firstPerNs_not_seen rest (seen ++ [a.ns]) c hcmem (by simp [hceq])

/-- Looking up the key just stored by `cacheSet` yields the stored value. -/
theorem cacheGet_cacheSet (c : List (String × List String)) (name : String) (v : List String) :
    cacheGet (cacheSet c name v) name = some v := by
  induction c with
  | nil => simp [cacheSet, cacheGet]
  | cons kv rest ih =>
    obtain ⟨k0, v0⟩ := kv
    by_cases hk : k0 = name
    · subst hk
      simp [cacheSet, cacheGet]
    · simp [cacheSet, cacheGet, hk, ih]

def scalarKids : Node := .mk none "ns" none (.scalar "x")
def absentKids : Node := .mk none "ns" none .absent
def scalarChild : Node := .mk (some "x") "ns" none (.scalar "s")
def swallowRoot : Node := .mk none "ns" none (.many (.cons (.node scalarChild) .nil))

def dupA : Node := .mk (some "b") "ns" none .absent
def dupB : Node := .mk (some "b") "ns" none (.scalar "inner")
def dupRoot : Node :=
  .mk none "ns" none (.many (.cons (.node dupA) (.cons (.node dupB) .nil)))

def compC3 : Node := .mk (some "c") "ns" none .absent
def compB3 : Node := .mk (some "b") "ns" none (.many (.cons (.node compC3) .nil))
def compA3 : Node := .mk (some "a") "ns" none .absent
def root3 : Node := .mk none "ns" none
  (.many (.cons (.node compA3) (.cons (.text "text") (.cons (.node compB3) .nil))))

/-- C1: for every tree `T` and id `k` occurring as the `id` of exactly
one descendant node `n` (depth-first pre-order list of matches is
`[n]`), `get(k)` returns that unique node. -/
theorem c1_get_returns_unique_match (T : Node) (k : String) (n : Node) (new : Entry)
    (h : matchesIn T k = [n]) : (gsd T k .get new).out = .ok (some n) :=
  gsd_get_of_match T k new n [] h

theorem c1_get_returns_unique_match_witness :
    matchesIn sampleRoot "a" = [sampleA] ∧
      (gsd sampleRoot "a" .get (.text "")).out = .ok (some sampleA) :=
  ⟨rfl, c1_get_returns_unique_match sampleRoot "a" sampleA (.text "") rfl⟩

/-- C2 (counterexample): on a node whose `children` is a scalar or
absent, `get` fails with the bare `KeyError` of
`_check_if_has_indexable_children` — the `InvalidStructure` site — and
not with `KeyError(id)` (`NotFound(id)`) as the claim states. -/
theorem c2_counterexample :
    (gsd scalarKids "a" .get (.text "")).out = .error .bare ∧
    (gsd absentKids "a" .get (.text "")).out = .error .bare ∧
    KeyErr.bare ≠ KeyErr.withId "a" :=
  ⟨rfl, rfl, by decide⟩

/-- C2 (amended): `get`/`set`/`delete` on a node whose `children` is
absent, `None`, or a scalar fail immediately with the structure-check
error (the bare `KeyError` raised by `_check_if_has_indexable_children`)
and leave the node unchanged; that check fails exactly when `children`
is not a Node and not a sequence, which includes the permitted absent
and scalar shapes. -/
theorem c2_nonindexable_bare_error (n : Node) (k : String) (op : Op) (new : Entry)
    (h : n.kids.indexable = false) : gsd n k op new = ⟨n, .error .bare⟩ := by
  match n with
  | .mk i nsp rs kids =>
    cases kids with
    | absent => rfl
    | null => rfl
    | scalar s => rfl
    | single c => simp [Node.kids_mk, Kids.indexable] at h
    | many xs => simp [Node.kids_mk, Kids.indexable] at h

theorem c2_nonindexable_bare_error_witness :
    scalarKids.kids.indexable = false ∧
      gsd scalarKids "a" .get (.text "") = ⟨scalarKids, .error .bare⟩ :=
  ⟨rfl, c2_nonindexable_bare_error scalarKids "a" .get (.text "") rfl⟩

/-- C3 (counterexample): for the literal scenario tree `root3` with
`children = [A(id=a), "text", B(id=b, children=[C(id=c)])]`,
`len(root)` is not 5. -/
theorem c3_counterexample : lenN root3 ≠ 5 := by decide

/-- C3 (amended): `len(root)` on the scenario tree returns 4: the loop
counts one per entry (A, "text", B) plus `len` of each Node entry
(`len(A) = 0`, `len(B) = 1` for C). -/
theorem c3_len_root3 : lenN root3 = 4 := rfl

/-- C5 (counterexample): with the id `b` occurring on two sibling
nodes, a successful `delete("b")` removes only the first match, and a
subsequent `get("b")` on the same tree succeeds, returning the second
node — it does not fail with `NotFound`. -/
theorem c5_counterexample :
    (gsd dupRoot "b" .delete (.text "")).out = .ok none ∧
    (gsd ((gsd dupRoot "b" .delete (.text "")).state) "b" .get (.text "")).out =
      .ok (some dupB) :=
  ⟨rfl, rfl⟩

/-- C5 (amended): when the id `k` occurs on at most one descendant, a
successful `delete(k)` followed by `get(k)` on the resulting tree
always fails with a `KeyError` (the `NotFound(id)` raise, or the
structure-check error when the deletion emptied a single-child slot). -/
theorem c5_delete_then_get_fails_when_unique (T : Node) (k : String) (new new2 : Entry)
    (v : Option Node) (hle : (matchesIn T k).length ≤ 1)
    (h : (gsd T k .delete new).out = .ok v) :
    ∃ e, (gsd ((gsd T k .delete new).state) k .get new2).out = .error e :=
  gsd_err_of_nomatch _ k .get new2 (gsd_delete_clears T k new v hle h)

theorem c5_delete_then_get_fails_when_unique_witness :
    (matchesIn sampleRoot "a").length ≤ 1 ∧
    (gsd sampleRoot "a" .delete (.text "")).out = .ok none ∧
    ∃ e, (gsd ((gsd sampleRoot "a" .delete (.text "")).state) "a" .get (.text "")).out =
      .error e :=
  ⟨by decide, rfl,
    c5_delete_then_get_fails_when_unique sampleRoot "a" (.text "") (.text "") none
      (by decide) rfl⟩

/-- C6: whenever `get`/`set`/`delete` raises a failure (`NotFound` or
the structure-check error), the tree is left exactly as it was before
the call: mutation happens only at the matched node, and a failing call
never leaves the tree partially mutated. -/
theorem c6_failing_call_leaves_tree_unchanged (n : Node) (k : String) (op : Op)
    (new : Entry) (e : KeyErr) (h : (gsd n k op new).out = .error e) :
    (gsd n k op new).state = n :=
  gsd_err_state n k op new e h

theorem c6_failing_call_leaves_tree_unchanged_witness :
    (gsd sampleRoot "z" .set (.text "t") ).out = .error (.withId "z") ∧
      (gsd sampleRoot "z" .set (.text "t") ).state = sampleRoot :=
  ⟨rfl, c6_failing_call_leaves_tree_unchanged sampleRoot "z" .set (.text "t")
    (.withId "z") rfl⟩

/-- C7: `list(iter(T))` yields exactly the non-null `id` values of the
descendant nodes in depth-first pre-order, left-to-right, excluding the
root; scalar entries and nodes without an id contribute nothing. -/
theorem c7_iter_yields_descendant_ids (n : Node) :
    iterN n = (descsN n).filterMap Node.id := by
  unfold iterN
  exact travN_ids n

/-- C8: the resource extractor collects, for each distinct namespace,
exactly the declared resource list of the first node (root first, then
traversal order) carrying that namespace, tagging every entry with the
owning namespace; the contributing nodes have pairwise distinct
namespaces, so each namespace contributes at most once. -/
theorem c8_inferred_resources_first_per_namespace (layout : Node) :
    getInferredResources layout =
      (firstPerNs [] (nodesOf (Entry.node layout :: travN layout))).flatMap declRes ∧
    ((firstPerNs [] (nodesOf (Entry.node layout :: travN layout))).map Node.ns).Nodup := by
  constructor
  · unfold getInferredResources
    rw [extract_fold]
    simp
  · exact firstPerNs_nodup _ []

/-- C9: both failure modes of `_get_set_or_delete` are the same Python
exception type `KeyError` (modelled by the single type `KeyErr`), and
the recursive descent catches every `KeyError` from a child — including
the structure-check failure of a child with absent or scalar
`children` — treating it as "no match here, try the next sibling".
Consequently, once the calling node itself passes the indexable-children
check, the only error that can surface is `KeyError(id)`, never a
child's structure error. -/
theorem c9_structure_errors_never_surface (n : Node) (k : String) (op : Op)
    (new : Entry) (e : KeyErr) (h1 : n.kids.indexable = true)
    (h2 : (gsd n k op new).out = .error e) : e = .withId k := by
  match n with
  | .mk i nsp rs kids =>
    cases kids with
    | absent => simp [Node.kids_mk, Kids.indexable] at h1
    | null => simp [Node.kids_mk, Kids.indexable] at h1
    | scalar s => simp [Node.kids_mk, Kids.indexable] at h1
    | single c =>
      by_cases hid : c.id = some k
      · cases op <;> simp [gsd, hid] at h2
      · cases hout : (gsd c k op new).out with
        | ok v => simp [gsd, hid, hout] at h2
        | error e' =>
          simp [gsd, hid, hout] at h2
          exact h2.symm
    | many xs =>
      cases hr : (gsdList xs k op new).2 with
      | some v => simp [gsd, hr] at h2
      | none =>
        simp [gsd, hr] at h2
        exact h2.symm

theorem c9_structure_errors_never_surface_witness :
    swallowRoot.kids.indexable = true ∧
    (gsd swallowRoot "a" .get (.text "")).out = .error (.withId "a") ∧
    KeyErr.withId "a" = KeyErr.withId "a" :=
  ⟨rfl, rfl,
    c9_structure_errors_never_surface swallowRoot "a" .get (.text "") (.withId "a")
      rfl rfl⟩

def instHeld : CompInst :=
  ⟨["id", "foo", "bar"], [], [("id", .str "a"), ("foo", .undef), ("bar", .num 1)], "A", "ns"⟩

def instAbsent : CompInst :=
  ⟨["id", "foo", "bar"], [], [("id", .str "a"), ("bar", .num 1)], "A", "ns"⟩

/-- C4 (counterexample): `to_plotly_json` filters only on `hasattr`:
when the `UNDEFINED` sentinel is actually held as the value of `foo`,
the property is present and is serialized with that value, not
omitted — the output props are not `{id: "a", bar: 1}`. -/
theorem c4_counterexample :
    (to_plotly_json instHeld).props =
      [("id", .str "a"), ("foo", .undef), ("bar", .num 1)] ∧
    (to_plotly_json instHeld).props ≠ [("id", .str "a"), ("bar", .num 1)] :=
  ⟨rfl, by decide⟩

/-- C4 (amended): a property is omitted from the serialized props when
it is absent as an attribute (which is how an unspecified/undefined
property is represented); for the node with `id = "a"`, `bar = 1` and
`foo` absent, `to_plotly_json` returns props `{id: "a", bar: 1}`
together with the node's type `A` and namespace `ns`. -/
theorem c4_undefined_omitted_via_absence :
    to_plotly_json instAbsent =
      ⟨[("id", .str "a"), ("bar", .num 1)], "A", "ns"⟩ := rfl

def env0 : String → String → List String :=
  fun m _ => if m = "m1" then ["r1"] else ["r2"]

def st0 : RegState := ⟨["m1"], []⟩

/-- C10: `ComponentRegistry.get_resources` caches per resource name,
but `if cached:` is Python truthiness — after a call returning `r`, a
later call with the same name over any then-current registry returns
the cached `r` unchanged when `r` is non-empty (later registrations are
not reflected), and recomputes over the current registry when `r` was
empty. -/
theorem c10_cache_only_when_nonempty (env : String → String → List String)
    (st : RegState) (name : String) (r : List String) (st' : RegState)
    (h : ComponentRegistry.getResources env st name = (r, st')) (reg2 : List String) :
    (ComponentRegistry.getResources env ⟨reg2, st'.cache⟩ name).1 =
      if r = [] then reg2.flatMap (fun m => env m name) else r := by
  cases hl : cacheGet st.cache name with
  | none =>
    simp only [ComponentRegistry.getResources, hl] at h
    injection h with h1 h2
    subst h1
    subst h2
    simp only [ComponentRegistry.getResources, cacheGet_cacheSet]
    by_cases hr0 : st.registry.flatMap (fun m => env m name) = [] <;> simp [hr0]
  | some cached =>
    by_cases hne : cached = []
    · subst hne
      simp only [ComponentRegistry.getResources, hl, ne_eq, not_true_eq_false,
        if_false] at h
      injection h with h1 h2
      subst h1
      subst h2
      simp only [ComponentRegistry.getResources, cacheGet_cacheSet]
      by_cases hr0 : st.registry.flatMap (fun m => env m name) = [] <;> simp [hr0]
    · simp only [ComponentRegistry.getResources, hl, ne_eq, hne, not_false_eq_true,
        if_true] at h
      injection h with h1 h2
      subst h1
      subst h2
      simp only [ComponentRegistry.getResources, hl, ne_eq, hne, not_false_eq_true,
        if_true]
      simp [hne]

theorem c10_cache_only_when_nonempty_witness :
    ComponentRegistry.getResources env0 st0 "js" = (["r1"], ⟨["m1"], [("js", ["r1"])]⟩) ∧
    (ComponentRegistry.getResources env0 ⟨["m1", "m2"], [("js", ["r1"])]⟩ "js").1 =
      (if (["r1"] : List String) = []
       then (["m1", "m2"] : List String).flatMap (fun m => env0 m "js")
       else ["r1"]) :=
  ⟨rfl,
    c10_cache_only_when_nonempty env0 st0 "js" ["r1"] ⟨["m1"], [("js", ["r1"])]⟩
      rfl ["m1", "m2"]⟩
